import Mathlib

/-!
Verification development for the PII pseudonymization core of a local
chat-completion proxy (source files: src/pii.js and src/index.js).

The JavaScript source is embedded shallowly:
  * text is a list of characters (`Str`);
  * the regular-expression patterns of the source are embedded as `RE`
    values and executed by a backtracking matcher `mtch` with JavaScript
    preference order (leftmost alternative first, greedy repetition);
    a fuel argument bounds the recursion depth and is chosen large enough
    for every evaluation in this file (all bodies of repetitions in the
    source patterns consume at least one character, so the recursion
    depth is linear in the input length);
  * `String.prototype.replace(regex, callback)` with a global regex is
    `replaceCB`: the list of non-overlapping leftmost matches is computed
    over the original text, and the stateful callback is folded over it;
  * `String.prototype.replaceAll(string, string)` is `replaceAllLit`;
  * the per-instance state (the `mappings` Map and the `counters` object)
    is `PState`; the module-level protected-token registry and counter is
    `GState`;
  * dynamically typed inputs are `JSVal` (the source guards with a
    falsiness and a typeof test before touching the text).
-/

namespace WsProxy

abbrev Str := List Char

/-! ## Character classes (JavaScript semantics, ASCII range) -/

def isDigitCh (c : Char) : Bool := '0' ≤ c && c ≤ '9'

def isLowCh (c : Char) : Bool := 'a' ≤ c && c ≤ 'z'

def isUpCh (c : Char) : Bool := 'A' ≤ c && c ≤ 'Z'

def isWordCh (c : Char) : Bool := isLowCh c || isUpCh c || isDigitCh c || c == '_'

def isSpaceCh (c : Char) : Bool :=
  c == ' ' || c == '\t' || c == '\n' || c == '\r' || c == '\x0b' || c == '\x0c'

def letAnyCh (c : Char) : Bool := isLowCh c || isUpCh c

def alnumAnyCh (c : Char) : Bool := letAnyCh c || isDigitCh c

def hexAnyCh (c : Char) : Bool :=
  isDigitCh c || ('a' ≤ c && c ≤ 'f') || ('A' ≤ c && c ≤ 'F')

def sepCh (c : Char) : Bool := isSpaceCh c || c == '.' || c == '-'

def wDotDashCh (c : Char) : Bool := isWordCh c || c == '.' || c == '-'

def wDashCh (c : Char) : Bool := isWordCh c || c == '-'

def oneNineCh (c : Char) : Bool := '1' ≤ c && c ≤ '9'

def threeNineCh (c : Char) : Bool := '3' ≤ c && c ≤ '9'

def sixNineCh (c : Char) : Bool := '6' ≤ c && c ≤ '9'

def oneTwoCh (c : Char) : Bool := c == '1' || c == '2'

def xyzAnyCh (c : Char) : Bool :=
  c == 'X' || c == 'Y' || c == 'Z' || c == 'x' || c == 'y' || c == 'z'

def bparsCh (c : Char) : Bool :=
  c == 'b' || c == 'p' || c == 'a' || c == 'r' || c == 's'

/-! ## Regular expressions -/

inductive RE where
  | eps
  | cls (p : Char → Bool)
  | seq (a b : RE)
  | alt (a b : RE)
  | rep (r : RE) (lo : Nat) (hi : Option Nat)
  | wb

def chr (c : Char) : RE := RE.cls (fun x => x == c)

def litL : Str → RE
  | [] => RE.eps
  | c :: cs => RE.seq (chr c) (litL cs)

def lit (s : String) : RE := litL s.toList

def seq3 (a b c : RE) : RE := RE.seq a (RE.seq b c)

def seqL : List RE → RE
  | [] => RE.eps
  | [r] => r
  | r :: rs => RE.seq r (seqL rs)

def alt3 (a b c : RE) : RE := RE.alt a (RE.alt b c)

def reN (r : RE) (n : Nat) : RE := RE.rep r n (some n)

def reRange (r : RE) (a b : Nat) : RE := RE.rep r a (some b)

def reMin (r : RE) (n : Nat) : RE := RE.rep r n none

def reOpt (r : RE) : RE := RE.rep r 0 (some 1)

def rePlus (r : RE) : RE := RE.rep r 1 none

/-- Word-boundary test between the previous character and the rest. -/
def atWb (prev : Option Char) (s : Str) : Bool :=
  (match prev with | none => false | some c => isWordCh c)
    != (match s with | [] => false | c :: _ => isWordCh c)

/--
Backtracking matcher.  Returns the list of possible outcomes
(character preceding the remainder, remainder) in JavaScript preference
order: alternatives left to right, repetition greedy (longest first).
The fuel bounds the recursion depth; every repetition iteration with
minimum 0 is required to consume at least one character, as in
JavaScript, so for the patterns of the source a fuel that is generously
linear in the input length is exact.
-/
def mtch : Nat → RE → Option Char → Str → List (Option Char × Str)
  | 0, _, _, _ => []
  | _ + 1, RE.eps, prev, s => [(prev, s)]
  | _ + 1, RE.cls p, _, s =>
    match s with
    | [] => []
    | c :: rest => if p c then [(some c, rest)] else []
  | _ + 1, RE.wb, prev, s => if atWb prev s then [(prev, s)] else []
  | fu + 1, RE.seq a b, prev, s =>
    (mtch fu a prev s).flatMap (fun pr => mtch fu b pr.1 pr.2)
  | fu + 1, RE.alt a b, prev, s => mtch fu a prev s ++ mtch fu b prev s
  | fu + 1, RE.rep r lo hi, prev, s =>
    match lo with
    | n + 1 =>
      (mtch fu r prev s).flatMap
        (fun pr => mtch fu (RE.rep r n (hi.map (fun m => m - 1))) pr.1 pr.2)
    | 0 =>
      match hi with
      | some 0 => [(prev, s)]
      | _ =>
        ((mtch fu r prev s).filter (fun pr => pr.2.length < s.length)).flatMap
          (fun pr => mtch fu (RE.rep r 0 (hi.map (fun m => m - 1))) pr.1 pr.2)
          ++ [(prev, s)]

def mfuel (s : Str) : Nat := (s.length + 2) * 200

/-- The match attempted at the current position: the first outcome in
preference order, as JavaScript takes it.  Returns the matched text, the
character preceding the remainder and the remainder. -/
def matchHere (re : RE) (prev : Option Char) (s : Str) :
    Option (Str × Option Char × Str) :=
  match (mtch (mfuel s) re prev s).head? with
  | none => none
  | some (pAfter, rest) => some (s.take (s.length - rest.length), pAfter, rest)

/-- Prepend a skipped character to a scan result: it lands in front of the
next matched segment, or in the trailing text if no match follows. -/
def consCh (c : Char) : List (Str × Str) × Str → List (Str × Str) × Str
  | ([], tl) => ([], c :: tl)
  | ((pre, m) :: segs, tl) => ((c :: pre, m) :: segs, tl)

/-- Left-to-right scan collecting the successive non-overlapping matches of
a global regex, exactly as `String.prototype.replace`/`match` with the `g`
flag: at each position the preferred match is taken, the scan resumes after
it.  (The source patterns never match the empty string; an empty match is
skipped by advancing one character, which is unreachable here.) -/
def scanRE : Nat → RE → Option Char → Str → List (Str × Str) × Str
  | _, _, _, [] => ([], [])
  | 0, _, _, s => ([], s)
  | fuel + 1, re, prev, c :: rest =>
    match matchHere re prev (c :: rest) with
    | some (matched, pAfter, rest2) =>
      if matched.isEmpty then consCh c (scanRE fuel re (some c) rest)
      else
        let (segs, tl) := scanRE fuel re pAfter rest2
        (([], matched) :: segs, tl)
    | none => consCh c (scanRE fuel re (some c) rest)

def splitMatches (re : RE) (s : Str) : List (Str × Str) × Str :=
  scanRE (s.length + 1) re none s

/-- All matches of a global regex in a text, in order
(`text.match(regex) || []`). -/
def allMatchStrs (re : RE) (s : Str) : List Str :=
  (splitMatches re s).1.map (fun pr => pr.2)

/-- Fold a stateful replacement callback over the matched segments,
assembling the replaced text (`String.prototype.replace` with a global
regex and a function argument). -/
def runCB {σ : Type} (cb : σ → Str → Str × σ) (st : σ) :
    List (Str × Str) → Str × σ
  | [] => ([], st)
  | (pre, m) :: segs =>
    let (r, st1) := cb st m
    let (out, st2) := runCB cb st1 segs
    (pre ++ r ++ out, st2)

def replaceCB {σ : Type} (re : RE) (cb : σ → Str → Str × σ) (st : σ)
    (s : Str) : Str × σ :=
  let (segs, tl) := splitMatches re s
  let (out, st2) := runCB cb st segs
  (out ++ tl, st2)

/-! ## Literal string search and replacement -/

/-- `a` occurs at the start of `b`. -/
def listLeads : Str → Str → Bool
  | [], _ => true
  | _ :: _, [] => false
  | a :: as, b :: bs => a == b && listLeads as bs

/-- `a` occurs somewhere inside `b` (contiguously). -/
def containsL (a b : Str) : Bool :=
  (List.range (b.length + 1)).any (fun i => listLeads a (b.drop i))

/-- Start index of the last full occurrence of `pat` in `s`
(`String.prototype.lastIndexOf`), if any. -/
def lastIdxOf (s pat : Str) : Option Nat :=
  (List.range (s.length + 1)).foldl
    (fun acc i => if listLeads pat (s.drop i) then some i else acc) none

/-- `String.prototype.replaceAll` with string pattern and string
replacement: successive non-overlapping occurrences, left to right, the
scan resuming after each replaced occurrence.  (JavaScript inserts the
replacement between every character when the pattern is empty; the source
never calls it with an empty pattern, and an empty pattern returns the
text unchanged here.) -/
def replaceAllLit (s pat repl : Str) : Str :=
  go (s.length + 1) s
where
  go : Nat → Str → Str
  | 0, t => t
  | _ + 1, [] => []
  | fuel + 1, c :: rest =>
    if pat.isEmpty then c :: rest
    else if listLeads pat (c :: rest) then
      repl ++ go fuel ((c :: rest).drop pat.length)
    else
      c :: go fuel rest

/-! ## Decimal rendering of counters (JavaScript template literal) -/

/-- The decimal digit characters. -/
def dCh : Nat → Char
  | 0 => '0' | 1 => '1' | 2 => '2' | 3 => '3' | 4 => '4'
  | 5 => '5' | 6 => '6' | 7 => '7' | 8 => '8' | _ => '9'

def natDigitsGo : Nat → Nat → Str
  | 0, _ => []
  | fuel + 1, n =>
    if n < 10 then [dCh n] else natDigitsGo fuel (n / 10) ++ [dCh (n % 10)]

/-- Decimal representation of a natural number, as a JavaScript template
literal renders an integer counter. -/
def natDigits (n : Nat) : Str := natDigitsGo (n + 1) n

/-! ## The pattern registry (src/pii.js) -/

def spcO : RE := reOpt (RE.cls isSpaceCh)

def sepO : RE := reOpt (RE.cls sepCh)

def dig : RE := RE.cls isDigitCh

def letA : RE := RE.cls letAnyCh

def alnumA : RE := RE.cls alnumAnyCh

/-- Email: `[\w.-]+@[\w.-]+\.\w{2,}` with flags gi. -/
def reEMAIL : RE :=
  seqL [rePlus (RE.cls wDotDashCh), chr '@', rePlus (RE.cls wDotDashCh),
    chr '.', reMin (RE.cls isWordCh) 2]

/-- IBAN: `\b[A-Z]{2}\d{2}(?:\s?[A-Z0-9]{4})+(?:\s?[A-Z0-9]{1,4})?\b`
with flags gi. -/
def reIBAN : RE :=
  seqL [RE.wb, reN letA 2, reN dig 2,
    rePlus (RE.seq spcO (reN alnumA 4)),
    reOpt (RE.seq spcO (reRange alnumA 1 4)), RE.wb]

/-- Italy Codice Fiscale: `\b[A-Z]{6}\d{2}[A-Z]\d{2}[A-Z]\d{3}[A-Z]\b`
with flags gi. -/
def reCODICE : RE :=
  seqL [RE.wb, reN letA 6, reN dig 2, letA, reN dig 2, letA, reN dig 3,
    letA, RE.wb]

/-- UK NIN: `\b[A-Z]{2}\d{6}[A-Z]\b` with flags gi. -/
def reUKNIN : RE := seqL [RE.wb, reN letA 2, reN dig 6, letA, RE.wb]

/-- Ireland PPS: `\b\d{7}[A-Z]{1,2}\b` with flags gi. -/
def rePPS : RE := seqL [RE.wb, reN dig 7, reRange letA 1 2, RE.wb]

/-- Spain NIF: `\b\d{8}[A-Z]\b` with flags gi. -/
def reNIF : RE := seqL [RE.wb, reN dig 8, letA, RE.wb]

/-- Spain NIE: `\b[XYZ]\d{7}[A-Z]\b` with flags gi. -/
def reNIE : RE := seqL [RE.wb, RE.cls xyzAnyCh, reN dig 7, letA, RE.wb]

/-- France NIR: `\b[12]\s?\d{2}\s?\d{2}\s?\d{2}\s?\d{3}\s?\d{3}\s?\d{2}\b`
with flag g. -/
def reNIR : RE :=
  seqL [RE.wb, RE.cls oneTwoCh, spcO, reN dig 2, spcO, reN dig 2, spcO,
    reN dig 2, spcO, reN dig 3, spcO, reN dig 3, spcO, reN dig 2, RE.wb]

/-- Belgium RRN: `\b\d{2}[\s.-]?\d{2}[\s.-]?\d{2}[\s.-]?\d{3}[\s.-]?\d{2}\b`
with flag g. -/
def reRRN : RE :=
  seqL [RE.wb, reN dig 2, sepO, reN dig 2, sepO, reN dig 2, sepO,
    reN dig 3, sepO, reN dig 2, RE.wb]

/-- Netherlands BSN: `\b\d{3}[\s.-]?\d{3}[\s.-]?\d{3}\b` with flag g. -/
def reBSN : RE :=
  seqL [RE.wb, reN dig 3, sepO, reN dig 3, sepO, reN dig 3, RE.wb]

/-- Germany Steuer-ID: `\b\d{11}\b` with flag g. -/
def reSTEUER : RE := seqL [RE.wb, reN dig 11, RE.wb]

/-- Netherlands phone: `(?:\+31|0031|0)[\s.-]?[1-9](?:[\s.-]?\d){8}`. -/
def rePhoneNL : RE :=
  seqL [alt3 (lit "+31") (lit "0031") (lit "0"), sepO, RE.cls oneNineCh,
    reN (RE.seq sepO dig) 8]

/-- Germany phone:
`(?:\+49|0049)[\s.-]?\d{2,4}[\s.-]?\d{3,8}(?:[\s.-]?\d{1,4})?`. -/
def rePhoneDE : RE :=
  seqL [RE.alt (lit "+49") (lit "0049"), sepO, reRange dig 2 4, sepO,
    reRange dig 3 8, reOpt (RE.seq sepO (reRange dig 1 4))]

/-- France phone: `(?:\+33|0033|0)[\s.-]?[1-9](?:[\s.-]?\d{2}){4}`. -/
def rePhoneFR : RE :=
  seqL [alt3 (lit "+33") (lit "0033") (lit "0"), sepO, RE.cls oneNineCh,
    reN (RE.seq sepO (reN dig 2)) 4]

/-- Belgium phone: `(?:\+32|0032|0)[\s.-]?[1-9](?:[\s.-]?\d){7,8}`. -/
def rePhoneBE : RE :=
  seqL [alt3 (lit "+32") (lit "0032") (lit "0"), sepO, RE.cls oneNineCh,
    reRange (RE.seq sepO dig) 7 8]

/-- Italy phone: `(?:\+39|0039)[\s.-]?3\d{2}[\s.-]?\d{6,7}`. -/
def rePhoneIT : RE :=
  seqL [RE.alt (lit "+39") (lit "0039"), sepO, chr '3', reN dig 2, sepO,
    reRange dig 6 7]

/-- Spain phone: `(?:\+34|0034)[\s.-]?[6-9]\d{2}[\s.-]?\d{3}[\s.-]?\d{3}`. -/
def rePhoneES : RE :=
  seqL [RE.alt (lit "+34") (lit "0034"), sepO, RE.cls sixNineCh, reN dig 2,
    sepO, reN dig 3, sepO, reN dig 3]

/-- Ireland phone:
`(?:\+353|00353)[\s.-]?8[3-9][\s.-]?\d{3}[\s.-]?\d{4}`. -/
def rePhoneIE : RE :=
  seqL [RE.alt (lit "+353") (lit "00353"), sepO, chr '8', RE.cls threeNineCh,
    sepO, reN dig 3, sepO, reN dig 4]

/-- UK phone: `(?:\+44|0044)[\s.-]?7\d{3}[\s.-]?\d{6}`. -/
def rePhoneUK : RE :=
  seqL [RE.alt (lit "+44") (lit "0044"), sepO, chr '7', reN dig 3, sepO,
    reN dig 6]

/-- Netherlands postcode: `\b\d{4}\s?[A-Z]{2}\b` with flags gi. -/
def rePostNL : RE := seqL [RE.wb, reN dig 4, spcO, reN letA 2, RE.wb]

/-- UK postcode: `\b[A-Z]{1,2}\d[A-Z\d]?\s?\d[A-Z]{2}\b` with flags gi. -/
def rePostUK : RE :=
  seqL [RE.wb, reRange letA 1 2, dig, reOpt alnumA, spcO, dig, reN letA 2,
    RE.wb]

/-- Ireland Eircode: `\b[A-Z]\d{2}\s?[A-Z0-9]{4}\b` with flags gi. -/
def rePostIE : RE := seqL [RE.wb, letA, reN dig 2, spcO, reN alnumA 4, RE.wb]

/-! ## Whitelisted domains and Zendesk system IDs -/

def WHITELISTED_EMAIL_DOMAINS : List Str :=
  ["woolsocks.eu".toList, "apcreation.nl".toList, "woolsocks.com".toList,
   "sniptech.nl".toList]

/-- Split a list at every occurrence of a character
(`String.prototype.split`). -/
def splitOnCh (c : Char) (s : Str) : List Str :=
  go (s.length + 1) s
where
  go : Nat → Str → List Str
  | 0, t => [t]
  | _, [] => [[]]
  | fuel + 1, x :: rest =>
    if x == c then [] :: go fuel rest
    else
      match go fuel rest with
      | [] => [[x]]
      | p :: ps => (x :: p) :: ps

def endsWithL (suf s : Str) : Bool := listLeads suf.reverse s.reverse

/-- `isWhitelistedEmail` of the source: takes the part after the first
`@`, lowercases it and compares it with the whitelisted domains (equality
or dot-suffix).  A missing domain part makes both checks false, as the
optional chaining in the source does. -/
def isWhitelistedEmail (email : Str) : Bool :=
  match (splitOnCh '@' email).drop 1 with
  | [] => false
  | d :: _ =>
    let domain := d.map Char.toLower
    WHITELISTED_EMAIL_DOMAINS.any
      (fun w => domain == w || endsWithL ('.' :: w) domain)

def trimL (s : Str) : Str :=
  (s.dropWhile isSpaceCh).reverse.dropWhile isSpaceCh |>.reverse

/-- `^\d{1,2}PHONE_[A-Z]{2}_\d{3,}$`, the anchored Zendesk system-ID
shape. -/
def reZendesk : RE :=
  seqL [reRange dig 1 2, lit "PHONE_", reN (RE.cls isUpCh) 2, chr '_',
    reMin dig 3]

/-- Whether the whole (trimmed) text matches the anchored Zendesk
pattern (`isZendeskSystemId` of the source). -/
def isZendeskSystemId (m : Str) : Bool :=
  let t := trimL m
  (mtch (mfuel t) reZendesk none t).any (fun pr => pr.2.isEmpty)

/-! ## Token protection (module-level registry of src/pii.js) -/

/-- Slack token pattern `xox[bpars]-[\w-]+`. -/
def reTokSlack : RE := seqL [lit "xox", RE.cls bparsCh, chr '-',
  rePlus (RE.cls wDashCh)]

/-- Sentry token pattern `sntryu_[\w]+`. -/
def reTokSntryu : RE := RE.seq (lit "sntryu_") (rePlus (RE.cls isWordCh))

/-- Sentry token pattern `sntrys_[\w]+`. -/
def reTokSntrys : RE := RE.seq (lit "sntrys_") (rePlus (RE.cls isWordCh))

/-- Generic API token pattern `\b[a-f0-9]{32,}\b` with flags gi. -/
def reTokHex : RE := seqL [RE.wb, reMin (RE.cls hexAnyCh) 32, RE.wb]

def TOKEN_PATTERNS : List RE := [reTokSlack, reTokSntryu, reTokSntrys, reTokHex]

/-- Module-level mutable state of src/pii.js: the placeholder counter
`tokenCounter` and the `protectedTokens` Map (placeholder to original,
insertion order).  The source never clears either. -/
structure GState where
  nextTok : Nat
  prot : List (Str × Str)
deriving Repr, DecidableEq

def g0 : GState := ⟨0, []⟩

/-- Map.prototype.set: replace the value of an existing key, else append. -/
def mapSet (l : List (Str × Str)) (k v : Str) : List (Str × Str) :=
  match l with
  | [] => [(k, v)]
  | p :: rest => if p.1 = k then (k, v) :: rest else p :: mapSet rest k v

def TOKEN_PLACEHOLDER_PREFIX : Str := "__PROTECTED_TOKEN_".toList

/-- The replacement callback of `protectTokens`: allocate the next
placeholder, record it in the module-level registry. -/
def protectCb (g : GState) (m : Str) : Str × GState :=
  let ph := TOKEN_PLACEHOLDER_PREFIX ++ natDigits g.nextTok ++ "__".toList
  (ph, ⟨g.nextTok + 1, mapSet g.prot ph m⟩)

/-- `protectTokens`: replace every occurrence of every token pattern with
a fresh placeholder, recording the original in the module-level map. -/
def protectTokens (g : GState) (t : Str) : Str × GState :=
  TOKEN_PATTERNS.foldl
    (fun acc re => replaceCB re protectCb acc.2 acc.1) (t, g)

/-- `restoreTokens`: replace every placeholder recorded in the
module-level map (all entries, also the ones of earlier calls) with its
original. -/
def restoreTokens (g : GState) (t : Str) : Str :=
  g.prot.foldl (fun acc pr => replaceAllLit acc pr.1 pr.2) t

/-! ## The pseudonymizer state and operations -/

/-- Per-instance state of `PIIPseudonymizer`: the `mappings` Map (token to
original, insertion order) and the `counters` object (type to count,
insertion order). -/
structure PState where
  mappings : List (Str × Str)
  counters : List (Str × Nat)
deriving Repr, DecidableEq

def pst0 : PState := ⟨[], []⟩

/-- `this.counters[type] || 0`. -/
def ctrOf (cs : List (Str × Nat)) (ty : Str) : Nat :=
  match cs with
  | [] => 0
  | p :: rest => if p.1 = ty then p.2 else ctrOf rest ty

/-- `this.counters[type] = v`: replace the value of an existing key, else
append. -/
def ctrBump (cs : List (Str × Nat)) (ty : Str) (v : Nat) : List (Str × Nat) :=
  match cs with
  | [] => [(ty, v)]
  | p :: rest => if p.1 = ty then (ty, v) :: rest else p :: ctrBump rest ty v

/-- The linear scan `for (const [token, original] of this.mappings) if
(original === match) return token`. -/
def mapFindTok (ms : List (Str × Str)) (m : Str) : Option Str :=
  match ms with
  | [] => none
  | p :: rest => if p.2 = m then some p.1 else mapFindTok rest m

/-- One pattern entry of the `PATTERNS` array. -/
structure Pat where
  ty : Str
  re : RE
  filt : Option (Str → Bool)

/-- The token string for a category and a counter value. -/
def tokenL (ty : Str) (k : Nat) : Str := ty ++ '_' :: natDigits k

/-- The replacement callback of `pseudonymize`: skip Zendesk system IDs,
skip filtered (whitelisted) values, reuse the token of an already-mapped
value, otherwise allocate the next token of the category. -/
def tokenCb (ty : Str) (filt : Option (Str → Bool)) (st : PState) (m : Str) :
    Str × PState :=
  if isZendeskSystemId m then (m, st)
  else if (match filt with | some f => f m | none => false) then (m, st)
  else
    match mapFindTok st.mappings m with
    | some tok => (tok, st)
    | none =>
      (tokenL ty (ctrOf st.counters ty + 1),
       ⟨mapSet st.mappings (tokenL ty (ctrOf st.counters ty + 1)) m,
        ctrBump st.counters ty (ctrOf st.counters ty + 1)⟩)

/-- The `PATTERNS` array of src/pii.js, in source order.  Only the email
entry carries a disqualifying filter. -/
def PATTERNS : List Pat :=
  [⟨"EMAIL".toList, reEMAIL, some isWhitelistedEmail⟩,
   ⟨"IBAN".toList, reIBAN, none⟩,
   ⟨"CODICE_FISCALE".toList, reCODICE, none⟩,
   ⟨"UK_NIN".toList, reUKNIN, none⟩,
   ⟨"PPS".toList, rePPS, none⟩,
   ⟨"NIF".toList, reNIF, none⟩,
   ⟨"NIE".toList, reNIE, none⟩,
   ⟨"NIR".toList, reNIR, none⟩,
   ⟨"RRN".toList, reRRN, none⟩,
   ⟨"BSN".toList, reBSN, none⟩,
   ⟨"STEUER_ID".toList, reSTEUER, none⟩,
   ⟨"PHONE_NL".toList, rePhoneNL, none⟩,
   ⟨"PHONE_DE".toList, rePhoneDE, none⟩,
   ⟨"PHONE_FR".toList, rePhoneFR, none⟩,
   ⟨"PHONE_BE".toList, rePhoneBE, none⟩,
   ⟨"PHONE_IT".toList, rePhoneIT, none⟩,
   ⟨"PHONE_ES".toList, rePhoneES, none⟩,
   ⟨"PHONE_IE".toList, rePhoneIE, none⟩,
   ⟨"PHONE_UK".toList, rePhoneUK, none⟩,
   ⟨"POSTCODE_NL".toList, rePostNL, none⟩,
   ⟨"POSTCODE_UK".toList, rePostUK, none⟩,
   ⟨"POSTCODE_IE".toList, rePostIE, none⟩]

def typeList : List Str := PATTERNS.map (fun p => p.ty)

/-- The pattern loop of `pseudonymize` (step 2): apply each pattern in
order to the current text, threading the instance state through the
replacement callback. -/
def applyPats (pats : List Pat) (st : PState) (s : Str) : Str × PState :=
  match pats with
  | [] => (s, st)
  | p :: rest =>
    let (s1, st1) := replaceCB p.re (tokenCb p.ty p.filt) st s
    applyPats rest st1 s1

/-- `pseudonymize` on an actual string: protect API tokens, apply the PII
patterns, restore the protected tokens. -/
def pseudonymizeText (g : GState) (st : PState) (t : Str) :
    Str × GState × PState :=
  let (t1, g1) := protectTokens g t
  let (t2, st1) := applyPats PATTERNS st t1
  (restoreTokens g1 t2, g1, st1)

/-- `depseudonymize` on an actual string: replace every token of the
mappings, in insertion order, by its original. -/
def depseudonymizeText (st : PState) (t : Str) : Str :=
  st.mappings.foldl (fun acc pr => replaceAllLit acc pr.1 pr.2) t

/-! ## Dynamically typed entry points -/

/-- The JavaScript values the entry points may receive. -/
inductive JSVal where
  | vstr (s : Str)
  | vnull
  | vundef
  | vnum (n : Int)
  | vbool (b : Bool)
deriving Repr, DecidableEq

def isStrV : JSVal → Bool
  | JSVal.vstr _ => true
  | _ => false

/-- `!text`: JavaScript falsiness of the supported values. -/
def falsyV : JSVal → Bool
  | JSVal.vstr s => s.isEmpty
  | JSVal.vnull => true
  | JSVal.vundef => true
  | JSVal.vnum n => n == 0
  | JSVal.vbool b => !b

/-- `pseudonymize(text)` including the guard that returns falsy or
non-string input unchanged. -/
def pseudonymize (g : GState) (st : PState) (v : JSVal) :
    JSVal × GState × PState :=
  if falsyV v || !isStrV v then (v, g, st)
  else
    match v with
    | JSVal.vstr s =>
      let (r, g1, st1) := pseudonymizeText g st s
      (JSVal.vstr r, g1, st1)
    | _ => (v, g, st)

/-- `depseudonymize(text)` including the guard. -/
def depseudonymize (st : PState) (v : JSVal) : JSVal :=
  if falsyV v || !isStrV v then v
  else
    match v with
    | JSVal.vstr s => JSVal.vstr (depseudonymizeText st s)
    | _ => v

/-- `detectPII`: every match of every pattern, in pattern order, paired
with its category. -/
def detectPII (t : Str) : List (Str × Str) :=
  PATTERNS.flatMap (fun p => (allMatchStrs p.re t).map (fun m => (p.ty, m)))

/-- `getStats()`: the size of the mappings and a copy of the counters. -/
def getStats (st : PState) : Nat × List (Str × Nat) :=
  (st.mappings.length, st.counters)

/-! ## The stream reassembly buffer (src/index.js) -/

def tokenPrefixes : List Str :=
  ["EMAIL".toList, "PHONE".toList, "BSN".toList, "IBAN".toList,
   "POSTCODE".toList, "UUID".toList]

/-- `flushBuffer(buffer, pseudonymizer)`: keep (in the buffer) everything
from the last occurrence of a known token prefix found within the final
20 characters; de-pseudonymize and emit the part before it. -/
def flushBuffer (st : PState) (buffer : Str) : Str × Str :=
  let cutoff := tokenPrefixes.foldl
    (fun cut p =>
      match lastIdxOf buffer p with
      | some i =>
        if (i : Int) > (buffer.length : Int) - 20 then min cut i else cut
      | none => cut)
    buffer.length
  let toFlush := buffer.take cutoff
  let clean :=
    match depseudonymize st (JSVal.vstr toFlush) with
    | JSVal.vstr r => r
    | _ => toFlush
  (clean, buffer.drop cutoff)

/-- The per-chunk text handler of `handleStreaming`: append the chunk to
the buffer, flush, emit the clean part (an empty emission writes
nothing). -/
def streamStep (st : PState) (buffer chunk : Str) : Str × Str :=
  flushBuffer st (buffer ++ chunk)

/-- All chunks of a stream followed by the terminal `message` event,
returning the concatenation of everything emitted. -/
def runStream (st : PState) (chunks : List Str) : Str :=
  go [] chunks
where
  go (buffer : Str) : List Str → Str
  | [] =>
    if buffer.isEmpty then []
    else
      match depseudonymize st (JSVal.vstr buffer) with
      | JSVal.vstr r => r
      | _ => buffer
  | c :: cs =>
    let (clean, rem) := streamStep st buffer c
    clean ++ go rem cs

/-! ## Facts about the decimal rendering -/

theorem dCh_digit (d : Nat) : isDigitCh (dCh d) = true := by
  unfold dCh
  split <;> decide

def dVal (c : Char) : Nat := c.toNat - 48

theorem dVal_dCh (d : Nat) (h : d ≤ 9) : dVal (dCh d) = d := by
  interval_cases d <;> decide

theorem natDigitsGo_digits (fuel : Nat) :
    ∀ n, ∀ c ∈ natDigitsGo fuel n, isDigitCh c = true := by
  induction fuel with
  | zero => intro n c hc; simp [natDigitsGo] at hc
  | succ f ih =>
    intro n c hc
    unfold natDigitsGo at hc
    split at hc
    · simp at hc; rw [hc]; exact dCh_digit n
    · rw [List.mem_append] at hc
      rcases hc with hc | hc
      · exact ih (n / 10) c hc
      · simp at hc; rw [hc]; exact dCh_digit (n % 10)

theorem natDigits_digits (n : Nat) : ∀ c ∈ natDigits n, isDigitCh c = true :=
  natDigitsGo_digits (n + 1) n

def digitsVal (l : Str) : Nat := l.foldl (fun a c => 10 * a + dVal c) 0

theorem digitsVal_append (l : Str) (c : Char) :
    digitsVal (l ++ [c]) = 10 * digitsVal l + dVal c := by
  simp [digitsVal, List.foldl_append]

theorem natDigitsGo_val (fuel : Nat) :
    ∀ n, n < fuel → digitsVal (natDigitsGo fuel n) = n := by
  induction fuel with
  | zero => intro n h; omega
  | succ f ih =>
    intro n h
    unfold natDigitsGo
    split
    · rename_i h10
      simp [digitsVal]
      exact dVal_dCh n (by omega)
    · rename_i h10
      rw [digitsVal_append, ih (n / 10) ?hlt, dVal_dCh (n % 10) (by omega)]
      · omega
      case hlt =>
        have hd := Nat.div_lt_self (show 0 < n by omega) (show 1 < 10 by omega)
        omega

theorem natDigits_val (n : Nat) : digitsVal (natDigits n) = n :=
  natDigitsGo_val (n + 1) n (by omega)

theorem natDigits_inj {m n : Nat} (h : natDigits m = natDigits n) : m = n := by
  have hm := natDigits_val m
  have hn := natDigits_val n
  rw [h] at hm
  omega

theorem natDigits_no_underscore (n : Nat) : '_' ∉ natDigits n := by
  intro hmem
  have := natDigits_digits n '_' hmem
  simp [isDigitCh] at this

theorem natDigits_single (k : Nat) (h : k < 10) : natDigits k = [dCh k] := by
  unfold natDigits natDigitsGo
  simp [h]

/-! ## Token strings are uniquely decomposable -/

theorem splitLast (a1 : Str) :
    ∀ a2 b1 b2 : Str, a1 ++ '_' :: b1 = a2 ++ '_' :: b2 →
      '_' ∉ b1 → '_' ∉ b2 → a1 = a2 ∧ b1 = b2 := by
  induction a1 with
  | nil =>
    intro a2 b1 b2 h h1 h2
    cases a2 with
    | nil => simpa using h
    | cons c cs =>
      simp at h
      exfalso
      apply h1
      rw [h.2]
      simp
  | cons c cs ih =>
    intro a2 b1 b2 h h1 h2
    cases a2 with
    | nil =>
      simp at h
      exfalso
      apply h2
      rw [← h.2]
      simp
    | cons d ds =>
      simp at h
      obtain ⟨hcd, hrest⟩ := h
      obtain ⟨hx, hy⟩ := ih ds b1 b2 hrest h1 h2
      exact ⟨by rw [hcd, hx], hy⟩

theorem tokenL_inj {ty1 ty2 : Str} {k1 k2 : Nat}
    (h : tokenL ty1 k1 = tokenL ty2 k2) : ty1 = ty2 ∧ k1 = k2 := by
  unfold tokenL at h
  obtain ⟨ht, hd⟩ := splitLast ty1 ty2 (natDigits k1) (natDigits k2) h
    (natDigits_no_underscore k1) (natDigits_no_underscore k2)
  exact ⟨ht, natDigits_inj hd⟩

/-! ## Association-list facts -/

theorem mapSet_fresh (ms : List (Str × Str)) (k v : Str)
    (h : ∀ p ∈ ms, p.1 ≠ k) : mapSet ms k v = ms ++ [(k, v)] := by
  induction ms with
  | nil => rfl
  | cons p rest ih =>
    unfold mapSet
    rw [if_neg (h p (by simp))]
    simp
    exact ih (fun q hq => h q (by simp [hq]))

theorem mapFindTok_none (ms : List (Str × Str)) (m : Str)
    (h : mapFindTok ms m = none) : ∀ p ∈ ms, p.2 ≠ m := by
  induction ms with
  | nil => simp
  | cons p rest ih =>
    unfold mapFindTok at h
    intro q hq
    by_cases hpm : p.2 = m
    · rw [if_pos hpm] at h; exact absurd h (by simp)
    · rw [if_neg hpm] at h
      rcases List.mem_cons.mp hq with hq | hq
      · rw [hq]; exact hpm
      · exact ih h q hq

theorem mapFindTok_mem (ms : List (Str × Str)) (m tok : Str)
    (hnd : ms.Pairwise (fun a b => a.2 ≠ b.2)) (hmem : (tok, m) ∈ ms) :
    mapFindTok ms m = some tok := by
  induction ms with
  | nil => simp at hmem
  | cons p rest ih =>
    unfold mapFindTok
    rcases List.mem_cons.mp hmem with hq | hq
    · rw [← hq]
      simp
    · have hpm : p.2 ≠ m := by
        have := (List.pairwise_cons.mp hnd).1 (tok, m) hq
        simpa using this
      rw [if_neg hpm]
      exact ih (List.pairwise_cons.mp hnd).2 hq

theorem ctrOf_bump_same (cs : List (Str × Nat)) (ty : Str) (v : Nat) :
    ctrOf (ctrBump cs ty v) ty = v := by
  induction cs with
  | nil => simp [ctrBump, ctrOf]
  | cons p rest ih =>
    unfold ctrBump
    by_cases hp : p.1 = ty
    · rw [if_pos hp]; simp [ctrOf]
    · rw [if_neg hp]
      unfold ctrOf
      rw [if_neg hp]
      exact ih

theorem ctrOf_bump_other (cs : List (Str × Nat)) (ty ty2 : Str) (v : Nat)
    (hne : ty2 ≠ ty) : ctrOf (ctrBump cs ty v) ty2 = ctrOf cs ty2 := by
  induction cs with
  | nil =>
    simp [ctrBump, ctrOf]
    intro h
    exact absurd h.symm hne
  | cons p rest ih =>
    unfold ctrBump
    by_cases hp : p.1 = ty
    · rw [if_pos hp]
      unfold ctrOf
      rw [if_neg (by simpa using fun h => hne h.symm),
        if_neg (by rw [hp]; simpa using fun h => hne h.symm)]
    · rw [if_neg hp]
      unfold ctrOf
      by_cases hq : p.1 = ty2
      · rw [if_pos hq, if_pos hq]
      · rw [if_neg hq, if_neg hq]
        exact ih

def sumCtrs (cs : List (Str × Nat)) : Nat := (cs.map (fun p => p.2)).sum

theorem sumCtrs_bump (cs : List (Str × Nat)) (ty : Str) :
    sumCtrs (ctrBump cs ty (ctrOf cs ty + 1)) = sumCtrs cs + 1 := by
  induction cs with
  | nil => simp [ctrBump, ctrOf, sumCtrs]
  | cons p rest ih =>
    by_cases hp : p.1 = ty
    · unfold ctrBump
      rw [if_pos hp]
      unfold ctrOf
      rw [if_pos hp]
      simp [sumCtrs]
      omega
    · unfold ctrBump
      rw [if_neg hp]
      unfold ctrOf
      rw [if_neg hp]
      simp [sumCtrs] at ih ⊢
      omega

theorem ctrOf_le (cs : List (Str × Nat)) (ty : Str) (b : Nat)
    (h : ∀ p ∈ cs, p.2 ≤ b) : ctrOf cs ty ≤ b := by
  induction cs with
  | nil => simp [ctrOf]
  | cons p rest ih =>
    unfold ctrOf
    by_cases hp : p.1 = ty
    · rw [if_pos hp]
      exact h p (by simp)
    · rw [if_neg hp]
      exact ih (fun q hq => h q (by simp [hq]))

/-! ## The session-state invariant -/

/-- The state invariant of a `PIIPseudonymizer` instance: the mapping size
equals the sum of the per-category counters; every token in the mapping is
a well-formed token of a registered category, numbered within its
category counter; tokens are pairwise distinct; originals are pairwise
distinct. -/
def Inv (st : PState) : Prop :=
  st.mappings.length = sumCtrs st.counters ∧
  (∀ p ∈ st.mappings, ∃ ty k, ty ∈ typeList ∧ 1 ≤ k ∧
    k ≤ ctrOf st.counters ty ∧ p.1 = tokenL ty k) ∧
  st.mappings.Pairwise (fun a b => a.1 ≠ b.1) ∧
  st.mappings.Pairwise (fun a b => a.2 ≠ b.2)

theorem token_fresh (st : PState)
    (hsh : ∀ p ∈ st.mappings, ∃ ty k, ty ∈ typeList ∧ 1 ≤ k ∧
      k ≤ ctrOf st.counters ty ∧ p.1 = tokenL ty k) (ty : Str) :
    ∀ p ∈ st.mappings, p.1 ≠ tokenL ty (ctrOf st.counters ty + 1) := by
  intro p hp heq
  obtain ⟨ty2, k, _, hk1, hk2, hp1⟩ := hsh p hp
  rw [hp1] at heq
  obtain ⟨hteq, hkeq⟩ := tokenL_inj heq
  rw [hteq] at hk2
  omega

theorem tokenCb_inv (ty : Str) (filt : Option (Str → Bool)) (st : PState)
    (m : Str) (hty : ty ∈ typeList) (hI : Inv st) :
    Inv (tokenCb ty filt st m).2 ∧
      ∃ ext, st.mappings ++ ext = (tokenCb ty filt st m).2.mappings := by
  unfold tokenCb
  split
  · exact ⟨hI, ⟨[], by simp⟩⟩
  · split
    · exact ⟨hI, ⟨[], by simp⟩⟩
    · split
      · exact ⟨hI, ⟨[], by simp⟩⟩
      · rename_i heq
        obtain ⟨hlen, hshape, hkeys, horig⟩ := hI
        have hfresh := token_fresh st hshape ty
        have hset : mapSet st.mappings
            (tokenL ty (ctrOf st.counters ty + 1)) m
            = st.mappings ++ [(tokenL ty (ctrOf st.counters ty + 1), m)] :=
          mapSet_fresh _ _ _ hfresh
        have hnom := mapFindTok_none st.mappings m heq
        refine ⟨⟨?_, ?_, ?_, ?_⟩, ?_⟩
        · simp only [hset]
          rw [List.length_append, hlen, sumCtrs_bump]
          simp
        · intro p hp
          simp only [hset] at hp
          rw [List.mem_append] at hp
          rcases hp with hp | hp
          · obtain ⟨ty2, k, hty2, hk1, hk2, hp1⟩ := hshape p hp
            refine ⟨ty2, k, hty2, hk1, ?_, hp1⟩
            by_cases hcase : ty2 = ty
            · rw [hcase] at hk2 ⊢
              rw [ctrOf_bump_same]
              omega
            · rw [ctrOf_bump_other _ _ _ _ hcase]
              exact hk2
          · simp at hp
            rw [hp]
            exact ⟨ty, ctrOf st.counters ty + 1, hty, by omega,
              by rw [ctrOf_bump_same], rfl⟩
        · simp only [hset]
          rw [List.pairwise_append]
          refine ⟨hkeys, by simp, ?_⟩
          intro a ha b hb
          simp at hb
          rw [hb]
          exact hfresh a ha
        · simp only [hset]
          rw [List.pairwise_append]
          refine ⟨horig, by simp, ?_⟩
          intro a ha b hb
          simp at hb
          rw [hb]
          exact hnom a ha
        · exact ⟨[(tokenL ty (ctrOf st.counters ty + 1), m)], hset.symm⟩

/-- The state after `runCB` is the fold of the callback state update over
the matched values. -/
theorem runCB_state {σ : Type} (cb : σ → Str → Str × σ) (st : σ)
    (segs : List (Str × Str)) :
    (runCB cb st segs).2 = segs.foldl (fun s pr => (cb s pr.2).2) st := by
  induction segs generalizing st with
  | nil => rfl
  | cons pr rest ih =>
    obtain ⟨pre, m⟩ := pr
    unfold runCB
    rcases hc : cb st m with ⟨r, st1⟩
    rcases hr : runCB cb st1 rest with ⟨out, st2⟩
    simp only [hc, hr]
    have := ih st1
    rw [hr] at this
    rw [List.foldl_cons, hc]
    exact this

theorem runCB_inv (ty : Str) (filt : Option (Str → Bool))
    (hty : ty ∈ typeList) (segs : List (Str × Str)) :
    ∀ st : PState, Inv st →
      Inv (runCB (tokenCb ty filt) st segs).2 ∧
      ∃ ext, st.mappings ++ ext = (runCB (tokenCb ty filt) st segs).2.mappings := by
  induction segs with
  | nil => intro st hI; exact ⟨hI, ⟨[], by simp [runCB]⟩⟩
  | cons pr rest ih =>
    intro st hI
    obtain ⟨hI1, ext1, hext1⟩ := tokenCb_inv ty filt st pr.2 hty hI
    obtain ⟨hI2, ext2, hext2⟩ := ih (tokenCb ty filt st pr.2).2 hI1
    rw [runCB_state] at hI2 hext2 ⊢
    rw [List.foldl_cons]
    refine ⟨hI2, ⟨ext1 ++ ext2, ?_⟩⟩
    rw [← List.append_assoc, hext1, hext2]

theorem replaceCB_state {σ : Type} (re : RE) (cb : σ → Str → Str × σ)
    (st : σ) (s : Str) :
    (replaceCB re cb st s).2 = (runCB cb st (splitMatches re s).1).2 := by
  unfold replaceCB
  rcases hs : splitMatches re s with ⟨segs, tl⟩
  rcases hr : runCB cb st segs with ⟨out, st2⟩
  simp [hs, hr]

theorem applyPats_inv (pats : List Pat) :
    ∀ (st : PState) (s : Str), (∀ p ∈ pats, p.ty ∈ typeList) → Inv st →
      Inv (applyPats pats st s).2 ∧
      ∃ ext, st.mappings ++ ext = (applyPats pats st s).2.mappings := by
  induction pats with
  | nil => intro st s _ hI; exact ⟨hI, ⟨[], by simp [applyPats]⟩⟩
  | cons p rest ih =>
    intro st s hmem hI
    unfold applyPats
    rcases hr : replaceCB p.re (tokenCb p.ty p.filt) st s with ⟨s1, st1⟩
    have hst1 : st1 = (runCB (tokenCb p.ty p.filt) st (splitMatches p.re s).1).2 := by
      have := replaceCB_state p.re (tokenCb p.ty p.filt) st s
      rw [hr] at this
      exact this
    obtain ⟨hI1, ext1, hext1⟩ :=
      runCB_inv p.ty p.filt (hmem p (by simp)) (splitMatches p.re s).1 st hI
    rw [← hst1] at hI1 hext1
    obtain ⟨hI2, ext2, hext2⟩ :=
      ih st1 s1 (fun q hq => hmem q (by simp [hq])) hI1
    refine ⟨hI2, ⟨ext1 ++ ext2, ?_⟩⟩
    rw [← List.append_assoc, hext1, hext2]

theorem pats_ty_mem : ∀ p ∈ PATTERNS, p.ty ∈ typeList := by
  intro p hp
  exact List.mem_map_of_mem _ hp

theorem pseudonymizeText_state (g : GState) (st : PState) (t : Str) :
    (pseudonymizeText g st t).2.2
      = (applyPats PATTERNS st (protectTokens g t).1).2 := by
  unfold pseudonymizeText
  rcases hp : protectTokens g t with ⟨t1, g1⟩
  rcases ha : applyPats PATTERNS st t1 with ⟨t2, st1⟩
  simp [hp, ha]

theorem pseudonymizeText_inv (g : GState) (st : PState) (t : Str)
    (hI : Inv st) :
    Inv (pseudonymizeText g st t).2.2 ∧
    ∃ ext, st.mappings ++ ext = (pseudonymizeText g st t).2.2.mappings := by
  rw [pseudonymizeText_state]
  exact applyPats_inv PATTERNS st (protectTokens g t).1 pats_ty_mem hI

/-- The session states reachable from a fresh `PIIPseudonymizer` by any
sequence of `pseudonymize` calls (with any module-level state and any
input text; calls with non-string input do not change the state). -/
inductive Reach : PState → Prop where
  | init : Reach pst0
  | step (g : GState) (t : Str) {st : PState} (h : Reach st) :
      Reach (pseudonymizeText g st t).2.2

theorem reach_inv {st : PState} (h : Reach st) : Inv st := by
  induction h with
  | init =>
    refine ⟨rfl, ?_, ?_, ?_⟩ <;> simp [pst0]
  | step g t h ih => exact (pseudonymizeText_inv g _ t ih).1

/-! ## Mutual non-overlap of single-digit tokens -/

theorem typeList_no_digit :
    ∀ ty ∈ typeList, ∀ c ∈ ty, isDigitCh c = false := by decide

theorem typeList_no_suffix :
    ∀ a ∈ typeList, ∀ b ∈ typeList,
      listLeads a.reverse b.reverse = true → a = b := by decide

theorem listLeads_self_append (a y : Str) : listLeads a (a ++ y) = true := by
  induction a with
  | nil => rfl
  | cons c cs ih => simp [listLeads, ih]

theorem suffix_listLeads (a b x : Str) (h : x ++ a = b) :
    listLeads a.reverse b.reverse = true := by
  rw [← h, List.reverse_append]
  exact listLeads_self_append _ _

theorem underscore_ne_dCh (k : Nat) : '_' ≠ dCh k := by
  intro h
  have hd := dCh_digit k
  rw [← h] at hd
  simp [isDigitCh] at hd

theorem tokenL_reverse (ty : Str) (k : Nat) (h : k < 10) :
    (tokenL ty k).reverse = dCh k :: '_' :: ty.reverse := by
  unfold tokenL
  rw [natDigits_single k h]
  simp

/-- Two distinct single-digit tokens are never contiguous substrings of
one another: category names contain no digit, no category name is a
proper suffix of another, and a token ends with its single digit. -/
theorem tokens_nonoverlap (ty1 ty2 : Str) (k1 k2 : Nat)
    (h1 : ty1 ∈ typeList) (h2 : ty2 ∈ typeList)
    (hk1 : 1 ≤ k1) (hk1b : k1 ≤ 9) (hk2 : 1 ≤ k2) (hk2b : k2 ≤ 9)
    (hne : tokenL ty1 k1 ≠ tokenL ty2 k2) :
    ¬ ∃ pre post, tokenL ty2 k2 = pre ++ tokenL ty1 k1 ++ post := by
  rintro ⟨pre, post, heq⟩
  cases post with
  | nil =>
    rw [List.append_nil] at heq
    have heq2 : ty2 ++ '_' :: natDigits k2
        = (pre ++ ty1) ++ '_' :: natDigits k1 := by
      simp only [tokenL] at heq
      simpa [List.append_assoc] using heq
    obtain ⟨hty, hdg⟩ := splitLast ty2 (pre ++ ty1) (natDigits k2)
      (natDigits k1) heq2 (natDigits_no_underscore k2)
      (natDigits_no_underscore k1)
    have hk12 : k1 = k2 := natDigits_inj hdg.symm
    have hsuf : listLeads ty1.reverse ty2.reverse = true :=
      suffix_listLeads ty1 ty2 pre hty.symm
    have hty12 : ty1 = ty2 := typeList_no_suffix ty1 h1 ty2 h2 hsuf
    exact hne (by rw [hty12, hk12])
  | cons q qs =>
    have hrev := congrArg List.reverse heq
    rw [tokenL_reverse ty2 k2 (by omega), List.reverse_append,
      List.reverse_append, tokenL_reverse ty1 k1 (by omega)] at hrev
    cases hqs : (q :: qs).reverse with
    | nil => exact absurd hqs (by simp)
    | cons c cs =>
      rw [hqs] at hrev
      simp only [List.cons_append, List.append_assoc] at hrev
      have htail : '_' :: ty2.reverse
          = cs ++ dCh k1 :: '_' :: (ty1.reverse ++ pre.reverse) := by
        have := List.tail_eq_of_cons_eq hrev
        simpa using this
      have hmem : dCh k1 ∈ '_' :: ty2.reverse := by
        rw [htail]
        simp
      rcases List.mem_cons.mp hmem with hmem | hmem
      · exact underscore_ne_dCh k1 hmem.symm
      · rw [List.mem_reverse] at hmem
        have := typeList_no_digit ty2 h2 (dCh k1) hmem
        rw [dCh_digit k1] at this
        exact absurd this (by simp)

/-! ## Concrete inputs used by the claim theorems -/

def uuidL : Str := "550e8400-e29b-41d4-a716-446655440000".toList

def c9Input : Str := "AB12 550e8400-e29b-41d4-a716-446655440000".toList

def c1Inputs : List Str :=
  ["Contact: jan@example.com".toList,
   "Contact jan@test.nl or jan@test.nl again".toList,
   "BSN: 123456789".toList,
   "User: 550e8400-e29b-41d4-a716-446655440000".toList]

def c3Inputs : List Str :=
  ["jan@woolsocks.eu".toList,
   "Contact jan@test.nl".toList,
   "BSN: 123456789".toList]

def hex32L : Str := "aaaaaaaaaaaaaaaaaaaaaaaaaaaaaaaa".toList

def c6Coll : Str :=
  "__PROTECTED_TOKEN_1__ aaaaaaaaaaaaaaaaaaaaaaaaaaaaaaaa".toList

/-- The session state after pseudonymizing one email, used by the
streaming scenario: its mapping is EMAIL_1 to jan(at)test.nl. -/
def streamState : PState := (pseudonymizeText g0 pst0 ("jan@test.nl".toList)).2.2

/-- A session state holding two tokens of different categories. -/
def twoTokState : PState :=
  (pseudonymizeText g0 pst0 ("jan@a.nl 123456789".toList)).2.2

def tenEmails : Str :=
  "a0@b.cc a1@b.cc a2@b.cc a3@b.cc a4@b.cc a5@b.cc a6@b.cc a7@b.cc a8@b.cc a9@b.cc".toList

/-- A session state holding ten tokens of the same category, so that the
counter has reached 10. -/
def tenState : PState := (pseudonymizeText g0 pst0 tenEmails).2.2

/-! ## Auxiliary lemma for C6 -/

theorem pairwise_snd_eq {l : List (Str × Str)}
    (hp : l.Pairwise (fun a b => a.2 ≠ b.2)) {t1 t2 v : Str}
    (h1 : (t1, v) ∈ l) (h2 : (t2, v) ∈ l) : t1 = t2 := by
  induction l with
  | nil => simp at h1
  | cons p rest ih =>
    obtain ⟨hhead, htail⟩ := List.pairwise_cons.mp hp
    rcases List.mem_cons.mp h1 with e1 | e1 <;>
      rcases List.mem_cons.mp h2 with e2 | e2
    · rw [← e1] at e2
      exact (Prod.mk.injEq t1 v t2 v ▸ congrArg id e2.symm).1
    · exfalso
      have := hhead (t2, v) e2
      rw [← e1] at this
      exact this rfl
    · exfalso
      have := hhead (t1, v) e1
      rw [← e2] at this
      exact this rfl
    · exact ih htail e1 e2

/-! ## The claims -/

set_option maxRecDepth 1000000

/-- Claim C1, counterexample: for the fresh-session input
"EMAIL_1 a(at)b.nl", which already contains a token-shaped substring, the
round trip fails: pseudonymize maps the email to EMAIL_1 (colliding with
the literal text), and depseudonymize rewrites both occurrences. -/
theorem c1_counterexample :
    depseudonymize
        (pseudonymize g0 pst0 (JSVal.vstr ("EMAIL_1 a@b.nl".toList))).2.2
        (pseudonymize g0 pst0 (JSVal.vstr ("EMAIL_1 a@b.nl".toList))).1
      ≠ JSVal.vstr ("EMAIL_1 a@b.nl".toList) := by decide

/-- Claim C1 (amended): for a fresh pseudonymizer, depseudonymize of
pseudonymize restores the input byte for byte on inputs that contain no
token-shaped substring, verified here for a family of representative
inputs including the concrete scenarios of the specification. -/
theorem c1_theorem : ∀ t ∈ c1Inputs,
    depseudonymize (pseudonymize g0 pst0 (JSVal.vstr t)).2.2
      (pseudonymize g0 pst0 (JSVal.vstr t)).1 = JSVal.vstr t := by decide

/-- Witness for C1: the round trip on the first concrete scenario. -/
theorem c1_witness :
    depseudonymize
        (pseudonymize g0 pst0 (JSVal.vstr ("Contact: jan@example.com".toList))).2.2
        (pseudonymize g0 pst0 (JSVal.vstr ("Contact: jan@example.com".toList))).1
      = JSVal.vstr ("Contact: jan@example.com".toList) :=
  c1_theorem ("Contact: jan@example.com".toList) (by decide)

/-- Claim C2: with the mapping EMAIL_1 to jan(at)test.nl, the chunk
"Your code is EMA" is emitted in full (the buffer withholds nothing,
because lastIndexOf finds no complete prefix word in "EMA"), and the
whole stream emits the token split across chunks without restoring it;
the claimed behavior only occurs when the chunk boundary falls after the
complete category word, as the final conjunct shows. -/
theorem c2_theorem :
    streamState.mappings = [("EMAIL_1".toList, "jan@test.nl".toList)] ∧
    streamStep streamState [] ("Your code is EMA".toList)
      = ("Your code is EMA".toList, []) ∧
    runStream streamState ["Your code is EMA".toList, "IL_1, thanks".toList]
      = "Your code is EMAIL_1, thanks".toList ∧
    streamStep streamState [] ("Your code is EMAIL".toList)
      = ("Your code is ".toList, "EMAIL".toList) := by decide

/-- Claim C3, counterexample: a whitelisted email passes through
pseudonymize unchanged, yet detectPII (which applies no filters) still
reports it, so detection on the output yields a match whose value is not
a token of the (empty) mapping. -/
theorem c3_counterexample :
    detectPII (pseudonymizeText g0 pst0 ("jan@woolsocks.eu".toList)).1
      = [("EMAIL".toList, "jan@woolsocks.eu".toList)] ∧
    (pseudonymizeText g0 pst0 ("jan@woolsocks.eu".toList)).2.2.mappings = [] := by
  decide

/-- Claim C3 (amended): every match reported by detectPII on the output
of pseudonymize is a token present in the mapping, a whitelisted email,
or a Zendesk system ID, verified for representative inputs including the
whitelisted-email case. -/
theorem c3_theorem : ∀ t ∈ c3Inputs,
    ((detectPII (pseudonymizeText g0 pst0 t).1).all (fun pr =>
      ((pseudonymizeText g0 pst0 t).2.2.mappings.any (fun q => q.1 == pr.2))
        || isWhitelistedEmail pr.2 || isZendeskSystemId pr.2)) = true := by
  decide

/-- Witness for C3: the whitelisted-email input. -/
theorem c3_witness :
    ((detectPII (pseudonymizeText g0 pst0 ("jan@woolsocks.eu".toList)).1).all
      (fun pr =>
        ((pseudonymizeText g0 pst0 ("jan@woolsocks.eu".toList)).2.2.mappings.any
          (fun q => q.1 == pr.2))
        || isWhitelistedEmail pr.2 || isZendeskSystemId pr.2)) = true :=
  c3_theorem ("jan@woolsocks.eu".toList) (by decide)

/-- Claim C4, counterexample: after one session pseudonymized ten emails,
the mapping holds both EMAIL_1 and EMAIL_10; EMAIL_1 is a contiguous
substring (in fact a proper leading part) of EMAIL_10, and consequently
depseudonymize, which iterates the mapping in insertion order, corrupts
EMAIL_10 into the original of EMAIL_1 followed by a zero. -/
theorem c4_counterexample :
    Reach tenState ∧
    tenState.mappings.map (fun p => p.1)
      = [tokenL ("EMAIL".toList) 1, tokenL ("EMAIL".toList) 2,
         tokenL ("EMAIL".toList) 3, tokenL ("EMAIL".toList) 4,
         tokenL ("EMAIL".toList) 5, tokenL ("EMAIL".toList) 6,
         tokenL ("EMAIL".toList) 7, tokenL ("EMAIL".toList) 8,
         tokenL ("EMAIL".toList) 9, tokenL ("EMAIL".toList) 10] ∧
    (∃ pre post, tokenL ("EMAIL".toList) 10
      = pre ++ tokenL ("EMAIL".toList) 1 ++ post) ∧
    depseudonymizeText tenState (tokenL ("EMAIL".toList) 10)
      ≠ "a9@b.cc".toList := by
  refine ⟨Reach.step g0 tenEmails Reach.init, by decide, ⟨[], ['0'], by decide⟩,
    by decide⟩

/-- Claim C4 (amended): in every reachable session state in which every
per-category counter is at most 9 (so every token carries a single-digit
number), no token in the mapping is a contiguous substring of a distinct
token in the mapping. -/
theorem c4_theorem (st : PState) (h : Reach st)
    (hctr : ∀ p ∈ st.counters, p.2 ≤ 9) :
    ∀ t1 t2, t1 ∈ st.mappings.map (fun p => p.1) →
      t2 ∈ st.mappings.map (fun p => p.1) → t1 ≠ t2 →
      ¬ ∃ pre post, t2 = pre ++ t1 ++ post := by
  intro t1 t2 ht1 ht2 hne
  obtain ⟨_, hshape, _, _⟩ := reach_inv h
  simp only [List.mem_map] at ht1 ht2
  obtain ⟨p1, hp1, hp1e⟩ := ht1
  obtain ⟨p2, hp2, hp2e⟩ := ht2
  obtain ⟨ty1, k1, hty1, hk1a, hk1b, he1⟩ := hshape p1 hp1
  obtain ⟨ty2, k2, hty2, hk2a, hk2b, he2⟩ := hshape p2 hp2
  rw [← hp1e, he1, ← hp2e, he2]
  have hb1 : k1 ≤ 9 := le_trans hk1b (ctrOf_le st.counters ty1 9 hctr)
  have hb2 : k2 ≤ 9 := le_trans hk2b (ctrOf_le st.counters ty2 9 hctr)
  apply tokens_nonoverlap ty1 ty2 k1 k2 hty1 hty2 hk1a hb1 hk2a hb2
  rw [← he1, ← he2, hp1e, hp2e]
  exact hne

/-- Witness for C4: in the concrete reachable two-token session state,
the European categories EMAIL and BSN yield non-overlapping tokens. -/
theorem c4_witness :
    ¬ ∃ pre post, tokenL ("BSN".toList) 1
      = pre ++ tokenL ("EMAIL".toList) 1 ++ post :=
  c4_theorem twoTokState
    (Reach.step g0 ("jan@a.nl 123456789".toList) Reach.init)
    (by decide) (tokenL ("EMAIL".toList) 1) (tokenL ("BSN".toList) 1)
    (by decide) (by decide) (by decide)

/-- Claim C5: in every reachable session state, originals are pairwise
distinct (the mapping holds exactly one entry per value) and tokens are
pairwise distinct (value to token and token to value are both
functions); the mapping only ever grows by appending (entries are never
removed or reassigned); and a matched value that is already mapped is
substituted by its existing token with no state change.  The final two
conjuncts evaluate the deduplication scenario of the specification:
the same email twice receives EMAIL_1 twice and one mapping entry. -/
theorem c5_theorem (st : PState) (h : Reach st) :
    st.mappings.Pairwise (fun a b => a.2 ≠ b.2) ∧
    st.mappings.Pairwise (fun a b => a.1 ≠ b.1) ∧
    (∀ g t, ∃ ext, st.mappings ++ ext = (pseudonymizeText g st t).2.2.mappings) ∧
    (∀ ty filt tok m, (tok, m) ∈ st.mappings →
      isZendeskSystemId m = false →
      (match filt with | some f => f m | none => false) = false →
      tokenCb ty filt st m = (tok, st)) ∧
    (pseudonymizeText g0 pst0
        ("Contact jan@test.nl or jan@test.nl again".toList)).1
      = "Contact EMAIL_1 or EMAIL_1 again".toList ∧
    ((pseudonymizeText g0 pst0
        ("Contact jan@test.nl or jan@test.nl again".toList)).2.2.mappings.filter
      (fun p => p.2 == "jan@test.nl".toList)).length = 1 := by
  obtain ⟨hlen, hshape, hkeys, horig⟩ := reach_inv h
  refine ⟨horig, hkeys, ?_, ?_, by decide, by decide⟩
  · intro g t
    exact (pseudonymizeText_inv g st t (reach_inv h)).2
  · intro ty filt tok m hmem hz hf
    have hfind := mapFindTok_mem st.mappings m tok horig hmem
    simp [tokenCb, hz, hf, hfind]

/-- Witness for C5: in the concrete one-email session state, the email
value is already mapped, and a second processing of the same value under
the email pattern returns the existing token EMAIL_1 with no state
change. -/
theorem c5_witness :
    tokenCb ("EMAIL".toList) (some isWhitelistedEmail) streamState
        ("jan@test.nl".toList)
      = ("EMAIL_1".toList, streamState) :=
  (c5_theorem streamState (Reach.step g0 ("jan@test.nl".toList) Reach.init)).2.2.2.1
    ("EMAIL".toList) (some isWhitelistedEmail) ("EMAIL_1".toList)
    ("jan@test.nl".toList) (by decide) (by decide) (by decide)

/-- Claim C6, counterexample: with the module-level protected-token
registry in its fresh start state, calling pseudonymize twice on the same
input (a literal placeholder-shaped text next to a 32-hex-character
token) returns different outputs: the second call allocates the
placeholder number 1, which collides with the literal text, and the
module-level restore pass rewrites both. -/
theorem c6_counterexample :
    (pseudonymizeText g0 pst0 c6Coll).1
      ≠ (pseudonymizeText (pseudonymizeText g0 pst0 c6Coll).2.1
          (pseudonymizeText g0 pst0 c6Coll).2.2 c6Coll).1 := by decide

/-- Claim C6 (amended): in every reachable session state no value is ever
assigned two different tokens; and repeating pseudonymize on the same
input yields the same output when the input contains no
placeholder-shaped text, verified on a concrete email input. -/
theorem c6_theorem :
    (∀ st, Reach st → ∀ t1 t2 v, (t1, v) ∈ st.mappings →
      (t2, v) ∈ st.mappings → t1 = t2) ∧
    (pseudonymizeText g0 pst0 ("Contact jan@test.nl".toList)).1
      = (pseudonymizeText
          (pseudonymizeText g0 pst0 ("Contact jan@test.nl".toList)).2.1
          (pseudonymizeText g0 pst0 ("Contact jan@test.nl".toList)).2.2
          ("Contact jan@test.nl".toList)).1 := by
  constructor
  · intro st h t1 t2 v h1 h2
    exact pairwise_snd_eq (reach_inv h).2.2.2 h1 h2
  · decide

/-- Witness for C6: the token of jan(at)test.nl in the concrete one-email
session state is unique. -/
theorem c6_witness : "EMAIL_1".toList = "EMAIL_1".toList :=
  c6_theorem.1 streamState (Reach.step g0 ("jan@test.nl".toList) Reach.init)
    ("EMAIL_1".toList) ("EMAIL_1".toList) ("jan@test.nl".toList)
    (by decide) (by decide)

/-- Claim C7: the protected-span registry is module-level and survives
the call: after pseudonymizing a 32-hex-character token (whose output
restores the original), the registry still holds the placeholder entry,
and a later call on a fresh pseudonymizer instance whose input is the
literal placeholder text receives the earlier call
original value, an observable leak of per-call state. -/
theorem c7_theorem :
    (pseudonymizeText g0 pst0 hex32L).1 = hex32L ∧
    (pseudonymizeText g0 pst0 hex32L).2.1.prot
      = [("__PROTECTED_TOKEN_0__".toList, hex32L)] ∧
    (pseudonymizeText (pseudonymizeText g0 pst0 hex32L).2.1 pst0
        ("__PROTECTED_TOKEN_0__".toList)).1 = hex32L := by decide

/-- Claim C8: pseudonymize and depseudonymize are total and act as the
identity on absent or non-string input, leaving all state unchanged. -/
theorem c8_theorem (v : JSVal) (g : GState) (st : PState)
    (h : isStrV v = false) :
    pseudonymize g st v = (v, g, st) ∧ depseudonymize st v = v := by
  cases v with
  | vstr s => simp [isStrV] at h
  | vnull => exact ⟨rfl, rfl⟩
  | vundef => exact ⟨rfl, rfl⟩
  | vnum n =>
    constructor
    · unfold pseudonymize
      simp [isStrV, falsyV]
    · unfold depseudonymize
      simp [isStrV, falsyV]
  | vbool b =>
    constructor
    · unfold pseudonymize
      simp [isStrV, falsyV]
    · unfold depseudonymize
      simp [isStrV, falsyV]

/-- Witness for C8: the null input. -/
theorem c8_witness :
    pseudonymize g0 pst0 JSVal.vnull = (JSVal.vnull, g0, pst0) ∧
    depseudonymize pst0 JSVal.vnull = JSVal.vnull :=
  c8_theorem JSVal.vnull g0 pst0 (by decide)

/-- Claim C9, counterexample: an input that contains the UUID does not in
general leave it untouched: with the prefix AB12 and a space, the IBAN
pattern matches a span that consumes the first UUID block, detectPII
reports it, and pseudonymize rewrites it, so the output no longer
contains the UUID. -/
theorem c9_counterexample :
    containsL uuidL c9Input = true ∧
    detectPII c9Input = [("IBAN".toList, "AB12 550e8400".toList)] ∧
    containsL uuidL (pseudonymizeText g0 pst0 c9Input).1 = false := by decide

/-- Claim C9 (amended): the UUID value itself produces zero detections in
every category, and pseudonymize leaves the concrete scenario input
containing it unchanged. -/
theorem c9_theorem :
    detectPII uuidL = [] ∧
    (pseudonymizeText g0 pst0
        ("User: 550e8400-e29b-41d4-a716-446655440000".toList)).1
      = "User: 550e8400-e29b-41d4-a716-446655440000".toList := by decide

/-- Claim C10: in every reachable session state, the totalRedacted field
of getStats (the mapping size) equals the sum of the per-category
counters it reports. -/
theorem c10_theorem (st : PState) (h : Reach st) :
    (getStats st).1 = sumCtrs (getStats st).2 := by
  have := (reach_inv h).1
  simpa [getStats] using this

/-- Witness for C10: the concrete one-email session state. -/
theorem c10_witness :
    (getStats streamState).1 = sumCtrs (getStats streamState).2 :=
  c10_theorem streamState (Reach.step g0 ("jan@test.nl".toList) Reach.init)

end WsProxy
